import Mathlib

/- Verification of clonos-convert-profiles (src/main.rs).

   The program converts shell-style profile files into a PHP configuration
   artifact, grouped by virtualization engine.  This file shallowly embeds its
   four components — the shell-config parser, the key-spec mini-language, the
   human-size-to-bytes converter and the emitter — and proves the frozen claims
   about them.

   Conventions of the embedding:
   * Rust strings are lists of characters (`Str`).  Rust's `str::trim` removes
     Unicode whitespace; the inputs at issue are ASCII, and we model it with
     `Char.isWhitespace` (space, tab, CR, LF).
   * `HashMap<String, String>` is an association list whose `insert` overwrites
     the previous binding; the emitter is later proved to depend on a map only
     through lookups, so the representation order is immaterial.
   * A Rust panic (reachable in `parse_shell_config`, see `stripQuotes`) is
     modelled as `none`.
   * `u64` arithmetic is `Nat` arithmetic modulo `2 ^ 64`; the one product the
     program computes wraps in release builds (debug builds abort), and the
     modulus records that. -/

namespace Clonos

/-- Rust `String` / `str` modelled as a list of characters. -/
abbrev Str := List Char

/-- Rust `str::trim`: drop leading and trailing whitespace. -/
def rsTrim (s : Str) : Str :=
  ((s.dropWhile Char.isWhitespace).reverse.dropWhile Char.isWhitespace).reverse

/-- Model of `HashMap<String, String>`: an association list. -/
abbrev RawConfig := List (Str × Str)

/-- Rust `HashMap::insert`: the new binding shadows any previous one for the key
    (last assignment wins). -/
def insertKV (k v : Str) (m : RawConfig) : RawConfig :=
  (k, v) :: m.filter (fun p => decide (p.1 ≠ k))

/-- Rust `HashMap::get`. -/
def lookupKV (k : Str) (m : RawConfig) : Option Str :=
  (m.find? (fun p => decide (p.1 = k))).map (fun p => p.2)

/-- Rust `str::find(c)` followed by the two substring takes of main.rs lines 37-39:
    the text before the first occurrence of `c` and the text after it. -/
def splitAtFirst (c : Char) : Str → Option (Str × Str)
  | [] => none
  | a :: as =>
    if a = c then some ([], as)
    else (splitAtFirst c as).map (fun p => (a :: p.1, p.2))

/-- Quote stripping of main.rs lines 42-46.  The source tests
    `starts_with` / `ends_with` on the value with NO length check, then runs
    `value.pop()` followed by `value.remove(0)`.  When the value is a single
    quote character the `pop` empties the string and `remove(0)` panics
    (index out of bounds); the panic is modelled as `none`. -/
def stripQuotes (v : Str) : Option Str :=
  if (v.head? = some '"' ∧ v.getLast? = some '"') ∨
     (v.head? = some '\'' ∧ v.getLast? = some '\'') then
    let v1 := v.dropLast
    if v1 = [] then none else some v1.tail
  else
    some v

/-- Parser state of `parse_shell_config`: the accumulated map and the
    in-progress logical line (`current_line`). -/
structure PState where
  map : RawConfig
  cur : Str
deriving DecidableEq

/-- One iteration of the line loop of `parse_shell_config`
    (main.rs lines 14-52). -/
def configStep (st : PState) (rawLine : Str) : Option PState :=
  let trimmed := rsTrim rawLine
  if trimmed = [] then some st
  else if trimmed.head? = some '#' then some st
  else if trimmed.getLast? = some '\\' then
    some { st with cur := st.cur ++ rsTrim trimmed.dropLast }
  else
    let cur := st.cur ++ trimmed
    match splitAtFirst '=' cur with
    | none => some { map := st.map, cur := [] }
    | some ba =>
      (stripQuotes (rsTrim ba.2)).map
        (fun v => { map := insertKV (rsTrim ba.1) v st.map, cur := [] })

/-- Function `parse_shell_config` applied to the lines of an already-read file (the I/O
    layer is outside the embedding).  An in-progress buffer left over at end of
    file is discarded; `none` models a panic inside the loop. -/
def parseShellConfigLines (lines : List Str) : Option RawConfig :=
  (lines.foldlM configStep { map := [], cur := [] }).map (fun st => st.map)

/-- Function `is_plain_number` (main.rs lines 118-121). -/
def is_plain_number (s : Str) : Bool :=
  let t := rsTrim s
  decide (t ≠ []) && t.all Char.isDigit

/-- Rust `str::parse::<u64>()` restricted to the digit-only strings the program
    feeds it: fails on an empty string and on a value that does not fit in
    64 bits. -/
def parseU64 (s : Str) : Option Nat :=
  if s = [] then none
  else if s.all Char.isDigit then
    let n := s.foldl (fun acc c => 10 * acc + (c.toNat - 48)) 0
    if n < 2 ^ 64 then some n else none
  else none

/-- Rust `u64::to_string`: decimal representation. -/
def decimal (n : Nat) : Str := (Nat.repr n).data

/-- Function `human_to_bytes` (main.rs lines 126-159).  The product `num * factor` is a
    `u64` multiplication, hence the modulus (release builds wrap; debug builds
    abort). -/
def human_to_bytes (s : Str) : Str :=
  let s := rsTrim s
  if s = [] then s
  else if is_plain_number s then s
  else
    let num_str := s.takeWhile Char.isDigit
    match parseU64 num_str with
    | none => s
    | some num =>
      let suffix := (s.dropWhile Char.isDigit).map Char.toLower
      let factor? : Option Nat :=
        if suffix = ['k'] then some 1024
        else if suffix = ['m'] then some (1024 ^ 2)
        else if suffix = ['g'] then some (1024 ^ 3)
        else if suffix = ['t'] then some (1024 ^ 4)
        else none
      match factor? with
      | none => s
      | some factor => decimal ((num * factor) % 2 ^ 64)

/-- Structure `KeySpec` (main.rs lines 92-97). -/
structure KeySpec where
  name : Str
  convert_to_bytes : Bool
deriving DecidableEq

/-- Rust `str::eq_ignore_ascii_case`.  `Char.toLower` lowercases exactly the ASCII
    range, matching Rust's ASCII case folding. -/
def eqIgnoreAsciiCase (a b : Str) : Bool :=
  decide (a.map Char.toLower = b.map Char.toLower)

/-- Function `parse_key_spec` (main.rs lines 100-115): `split_once(':')` splits at the
    first colon; both halves are trimmed. -/
def parse_key_spec (s : Str) : KeySpec :=
  let t := rsTrim s
  match splitAtFirst ':' t with
  | some nm =>
    { name := rsTrim nm.1
      convert_to_bytes := eqIgnoreAsciiCase (rsTrim nm.2) (("bytes").data) }
  | none => { name := t, convert_to_bytes := false }

/-- Rust `str::replace` with a single-character pattern: every occurrence of `pat`
    becomes `rep`, everything else is copied. -/
def replaceChar (pat : Char) (rep : Str) (s : Str) : Str :=
  s.flatMap (fun c => if c = pat then rep else [c])

/-- Function `php_escape` (main.rs lines 87-89): first double every backslash, then
    prefix every double quote with a backslash. -/
def php_escape (s : Str) : Str :=
  replaceChar '"' ['\\', '"'] (replaceChar '\\' ['\\', '\\'] s)

/-- The parameter list built for one profile before sorting
    (main.rs lines 431-441): one entry per key spec whose name has a value in
    the profile, the value converted when the spec says so. -/
def presentParams (key_specs : List KeySpec) (profile : RawConfig) :
    List (Str × Str) :=
  key_specs.filterMap (fun spec =>
    (lookupKV spec.name profile).map (fun value =>
      (spec.name, if spec.convert_to_bytes then human_to_bytes value else value)))

/-- The comparison of main.rs line 444: order parameters by name.  `≤` on
    `List Char` is the lexicographic order, which is what `String::cmp` is. -/
def paramLe (a b : Str × Str) : Prop := a.1 ≤ b.1

instance : DecidableRel paramLe := fun a b =>
  inferInstanceAs (Decidable (a.1 ≤ b.1))

instance : IsTotal (Str × Str) paramLe := ⟨fun a b => le_total a.1 b.1⟩

instance : IsTrans (Str × Str) paramLe :=
  ⟨fun _ _ _ hab hbc => le_trans hab hbc⟩

/-- The sorted parameter list of one profile (main.rs lines 431-444).  Rust's
    `sort_by` is a stable sort; a stable sort's output is determined by the
    comparator, so the stable `insertionSort` is an exact model of it. -/
def profileParams (key_specs : List KeySpec) (profile : RawConfig) :
    List (Str × Str) :=
  List.insertionSort paramLe (presentParams key_specs profile)

/-- Structure `EngineData` (main.rs lines 57-63).  `prefix` is a Lean keyword, so the
    Rust field `prefix` is called `pfx` here. -/
structure EngineData where
  id : Str
  name : Str
  description : Str
  pfx : Str
  profiles : List RawConfig
deriving DecidableEq

/-- Function `get_engine_metadata` (main.rs lines 66-85). -/
def get_engine_metadata (id : Str) : Option (Str × Str × Str) :=
  if id = ("bhyve").data then
    some (("bhyve").data, ("Native FreeBSD hypervisor").data, ("b").data)
  else if id = ("xen").data then
    some (("xen").data, ("XEN type-1 hypervisor").data, ("x").data)
  else if id = ("qemu").data then
    some (("qemu").data, ("QEMU hypervisor").data, ("q").data)
  else none

/-- Whether a parsed profile activates the engine `eid`: its `<eid>_active`
    key holds exactly "1" (main.rs lines 308-310). -/
def isActiveFor (eid : Str) (c : RawConfig) : Bool :=
  decide (lookupKV (eid ++ ("_active").data) c = some (("1").data))

/-- Inner loop of profile distribution (main.rs lines 307-314): append
    `config` to the profile list of every engine it activates. -/
def activateConfig (config : RawConfig) (engines : List EngineData) :
    List EngineData :=
  engines.map (fun e =>
    if isActiveFor e.id config then
      { e with profiles := e.profiles ++ [config] }
    else e)

/-- Outer loop of profile distribution (main.rs lines 304-320), over the
    already-parsed configs in file order. -/
def aggregate (engines : List EngineData) (configs : List RawConfig) :
    List EngineData :=
  configs.foldl (fun es c => activateConfig c es) engines

/-- The six optional limit values, already trimmed / converted / filtered
    (main.rs lines 274-292). -/
structure Limits where
  vm_cpus_max : Option Str
  vm_cpus_min : Option Str
  vm_ram_max : Option Str
  vm_ram_min : Option Str
  imgsize_max : Option Str
  imgsize_min : Option Str
deriving DecidableEq

/-- One optional limit line of the output (main.rs lines 384-413): emitted only
    when the value is present. -/
def limitChunk (label : Str) (v? : Option Str) : List Str :=
  match v? with
  | none => []
  | some v =>
    [("\t\t\"").data ++ label ++ ("\"=>\"").data ++ php_escape v ++ ("\",\n").data]

/-- One `"key"=>"value"` piece of a profile line (main.rs lines 455-460). -/
def paramPiece (p : Str × Str) : Str :=
  ("\"").data ++ php_escape p.1 ++ ("\"=>\"").data ++ php_escape p.2 ++ ("\"").data

/-- The output chunks of one profile (main.rs lines 424-477): the `p<idx>`
    header, the sorted parameter pieces joined by commas, and the closer, which
    carries a comma except after the last profile. -/
def profileChunks (key_specs : List KeySpec) (profiles_len idx : Nat)
    (profile : RawConfig) : List Str :=
  [("\t\t\t\"p").data ++ (Nat.repr idx).data ++ ("\"=>[").data]
    ++ List.intersperse ((",").data)
        ((profileParams key_specs profile).map paramPiece)
    ++ [if idx + 1 < profiles_len then ("],\n").data else ("]\n").data]

/-- The output chunks of one engine (main.rs lines 339-494). -/
def engineChunks (key_specs : List KeySpec) (lim : Limits)
    (engines_len ei : Nat) (e : EngineData) : List Str :=
  [("\t\"").data ++ e.id ++ ("\"=>[\n").data,
   ("\t\t\"name\"=>\"").data ++ php_escape e.name ++ ("\",\n").data,
   ("\t\t\"description\"=>\"").data ++ php_escape e.description ++ ("\",\n").data,
   ("\t\t\"prefix\"=>\"").data ++ php_escape e.pfx ++ ("\",\n").data,
   ("\t\t\"count\"=>\"").data ++ (Nat.repr e.profiles.length).data ++ ("\",\n").data]
    ++ limitChunk (("vm_cpus_max").data) lim.vm_cpus_max
    ++ limitChunk (("vm_cpus_min").data) lim.vm_cpus_min
    ++ limitChunk (("vm_ram_max").data) lim.vm_ram_max
    ++ limitChunk (("vm_ram_min").data) lim.vm_ram_min
    ++ limitChunk (("imgsize_max").data) lim.imgsize_max
    ++ limitChunk (("imgsize_min").data) lim.imgsize_min
    ++ (if e.profiles = [] then [("\t\t\"data\"=>[],\n").data]
        else
          [("\t\t\"data\"=>[\n").data]
            ++ (List.enumFrom 0 e.profiles).flatMap
                (fun p => profileChunks key_specs e.profiles.length p.1 p.2)
            ++ [("\t\t],\n").data])
    ++ [if ei + 1 < engines_len then ("\t],\n").data else ("\t]\n").data]

/-- Everything written to the output file, in write order
    (main.rs lines 331-498). -/
def outputChunks (key_specs : List KeySpec) (lim : Limits)
    (engines : List EngineData) : List Str :=
  [("<?php\n").data, ("ClonOS::$engines=[\n").data]
    ++ (List.enumFrom 0 engines).flatMap
        (fun p => engineChunks key_specs lim engines.length p.1 p.2)
    ++ [("];\n").data]

/-- Observable events of a run of `main`, in order: a warning printed to
    stderr, a fatal-error exit, a process abort from a library panic, the
    creation of the output file, and one chunk written to it. -/
inductive Event where
  | warning
  | fatal
  | panicked
  | createOutput
  | writeOut (s : Str)
deriving DecidableEq

/-- Rust `str::split_whitespace` (helper): accumulate the current word reversed. -/
def splitWSGo : Str → Str → List Str
  | [], acc => if acc = [] then [] else [acc.reverse]
  | c :: cs, acc =>
    if Char.isWhitespace c then
      if acc = [] then splitWSGo cs []
      else acc.reverse :: splitWSGo cs []
    else splitWSGo cs (c :: acc)

/-- Rust `str::split_whitespace`: the maximal non-whitespace runs. -/
def splitWS (s : Str) : List Str := splitWSGo s []

/-- Engine id list from the `-c` value (main.rs lines 218-222). -/
def engineIdsOf (caps : Str) : List Str :=
  ((splitWS caps).map rsTrim).filter (fun t => decide (t ≠ []))

/-- The engine registry built from the requested ids (main.rs lines 230-246):
    known ids become `EngineData` with no profiles, unknown ids are dropped. -/
def mkEngines (ids : List Str) : List EngineData :=
  ids.filterMap (fun i =>
    (get_engine_metadata i).map (fun m =>
      { id := i, name := m.1, description := m.2.1, pfx := m.2.2, profiles := [] }))

/-- Key specs from `CIX_PROFILES_DATA` (main.rs lines 262-266). -/
def keySpecsOf (keys_env : Str) : List KeySpec :=
  ((List.splitOn ',' keys_env).map parse_key_spec).filter
    (fun k => decide (k.name ≠ []))

/-- Expression `v.trim().to_string()` filtered to non-empty (main.rs lines 274-275). -/
def procRawLimit (v : Option Str) : Option Str :=
  match v with
  | none => none
  | some s => let t := rsTrim s; if t = [] then none else some t

/-- Expression `human_to_bytes(v.trim())` filtered to non-empty (main.rs lines 277-292). -/
def procSizeLimit (v : Option Str) : Option Str :=
  match v with
  | none => none
  | some s => let t := human_to_bytes (rsTrim s); if t = [] then none else some t

/-- The raw optional environment variables feeding the limits. -/
structure RawLimits where
  vm_cpus_max : Option Str
  vm_cpus_min : Option Str
  vm_ram_max : Option Str
  vm_ram_min : Option Str
  imgsize_max : Option Str
  imgsize_min : Option Str
deriving DecidableEq

/-- Processing of the six optional limits (main.rs lines 274-292). -/
def limitsOf (raw : RawLimits) : Limits :=
  { vm_cpus_max := procRawLimit raw.vm_cpus_max
    vm_cpus_min := procRawLimit raw.vm_cpus_min
    vm_ram_max := procSizeLimit raw.vm_ram_max
    vm_ram_min := procSizeLimit raw.vm_ram_min
    imgsize_max := procSizeLimit raw.imgsize_max
    imgsize_min := procSizeLimit raw.imgsize_min }

/-- The file system visible to the run: path to file lines; `none` (or an
    absent path) models an unreadable file. -/
abbrev FileSys := List (Str × Option (List Str))

def fsLookup (path : Str) (fs : FileSys) : Option (List Str) :=
  match fs.find? (fun p => decide (p.1 = path)) with
  | some entry => entry.2
  | none => none

/-- Profile loading loop (main.rs lines 304-320): an unreadable file yields a
    warning and is skipped; a parse panic aborts the run (`none`); a parsed
    config is distributed to the engines it activates. -/
def loadProfiles (fs : FileSys) :
    List Str → List EngineData → List Event × Option (List EngineData)
  | [], engines => ([], some engines)
  | path :: rest, engines =>
    match fsLookup path fs with
    | none =>
      let r := loadProfiles fs rest engines
      (Event.warning :: r.1, r.2)
    | some lines =>
      match parseShellConfigLines lines with
      | none => ([], none)
      | some config => loadProfiles fs rest (activateConfig config engines)

/-- The inputs of a run of `main`, with command-line parsing (out of scope)
    already done: the `-c` and `-o` values, the environment, the file system. -/
structure MainInput where
  capabilities : Option Str
  output_path : Option Str
  cix_profiles_data : Option Str
  cix_profiles : Option Str
  env_limits : RawLimits
  fs : FileSys

/-- The event trace of `main` (main.rs lines 201-498): argument checks, engine
    registry construction, key-spec and env checks, profile loading, then
    creation of the output file followed by the writes.  In this pure model
    the writes themselves do not fail. -/
def mainTrace (inp : MainInput) : List Event :=
  match inp.capabilities with
  | none => [Event.fatal]
  | some caps =>
    match inp.output_path with
    | none => [Event.fatal]
    | some _ =>
      let engine_ids := engineIdsOf caps
      if engine_ids = [] then [Event.fatal]
      else
        (engine_ids.filter (fun i => (get_engine_metadata i).isNone)).map
            (fun _ => Event.warning) ++
          (if mkEngines engine_ids = [] then [Event.fatal]
           else
             match inp.cix_profiles_data with
             | none => [Event.fatal]
             | some keys_env =>
               if keySpecsOf keys_env = [] then [Event.fatal]
               else
                 match inp.cix_profiles with
                 | none => [Event.fatal]
                 | some profs =>
                   let loaded := loadProfiles inp.fs (splitWS profs)
                       (mkEngines engine_ids)
                   loaded.1 ++
                     match loaded.2 with
                     | none => [Event.panicked]
                     | some engines2 =>
                       Event.createOutput ::
                         (outputChunks (keySpecsOf keys_env)
                             (limitsOf inp.env_limits) engines2).map Event.writeOut)

/-- Two raw configs that agree on every lookup — e.g. two hash maps holding the
    same bindings but iterated in different orders. -/
def ConfigExtEq (a b : RawConfig) : Prop := ∀ k, lookupKV k a = lookupKV k b

/-- Engine states equal except that their profile maps are only known to agree
    on lookups. -/
def EngineExtEq (a b : EngineData) : Prop :=
  a.id = b.id ∧ a.name = b.name ∧ a.description = b.description ∧
    a.pfx = b.pfx ∧ List.Forall₂ ConfigExtEq a.profiles b.profiles

/-- Claim C2's description of `human_to_bytes`, written from the spec's words,
    amended only in that the product is reduced modulo `2 ^ 64` (the code
    multiplies in `u64`). -/
def human_to_bytes_claim (s : Str) : Str :=
  let t := rsTrim s
  if t = [] then t
  else if t.all Char.isDigit then t
  else
    let digits := t.takeWhile Char.isDigit
    let sfx := t.dropWhile Char.isDigit
    match parseU64 digits with
    | none => t
    | some n =>
      if eqIgnoreAsciiCase sfx (("k").data) then decimal ((n * 1024) % 2 ^ 64)
      else if eqIgnoreAsciiCase sfx (("m").data) then decimal ((n * 1024 ^ 2) % 2 ^ 64)
      else if eqIgnoreAsciiCase sfx (("g").data) then decimal ((n * 1024 ^ 3) % 2 ^ 64)
      else if eqIgnoreAsciiCase sfx (("t").data) then decimal ((n * 1024 ^ 4) % 2 ^ 64)
      else t

/- Helper lemmas. -/

theorem dropWhile_prefix_fix {p : Char → Bool} :
    ∀ {x y : Str}, x.dropWhile p = x → y <+: x → y.dropWhile p = y := by
  intro x y hx hyx
  cases y with
  | nil => rfl
  | cons a ys =>
    obtain ⟨t, ht⟩ := hyx
    have hx2 : x = a :: (ys ++ t) := by rw [← ht]; simp
    have ha : p a = false := by
      cases hp : p a with
      | false => rfl
      | true =>
        exfalso
        have hdw : x.dropWhile p = (ys ++ t).dropWhile p := by
          rw [hx2, List.dropWhile_cons, hp]
          simp
        have hlen : x.length ≤ (ys ++ t).length := by
          calc x.length = (x.dropWhile p).length := by rw [hx]
            _ = ((ys ++ t).dropWhile p).length := by rw [hdw]
            _ ≤ (ys ++ t).length := (List.dropWhile_suffix p).sublist.length_le
        rw [hx2] at hlen
        simp at hlen
    rw [List.dropWhile_cons, ha]
    simp

theorem rsTrim_idem (s : Str) : rsTrim (rsTrim s) = rsTrim s := by
  unfold rsTrim
  have hu : (s.dropWhile Char.isWhitespace).dropWhile Char.isWhitespace
      = s.dropWhile Char.isWhitespace := List.dropWhile_idempotent _ _
  have hpre :
      ((s.dropWhile Char.isWhitespace).reverse.dropWhile Char.isWhitespace).reverse
        <+: s.dropWhile Char.isWhitespace := by
    rw [← List.reverse_suffix]
    simpa using
      List.dropWhile_suffix (l := (s.dropWhile Char.isWhitespace).reverse)
        Char.isWhitespace
  have h1 := dropWhile_prefix_fix hu hpre
  rw [h1, List.reverse_reverse, List.dropWhile_idempotent]

theorem splitAtFirst_eq_none {c : Char} :
    ∀ {s : Str}, c ∉ s → splitAtFirst c s = none := by
  intro s
  induction s with
  | nil => intro _; rfl
  | cons a as ih =>
    intro h
    rw [List.mem_cons, not_or] at h
    unfold splitAtFirst
    rw [if_neg (fun he => h.1 he.symm), ih h.2]
    rfl

theorem mem_const_warning {ev : Event} {α : Type} {l : List α}
    (h : ev ∈ l.map (fun _ => Event.warning)) : ev = Event.warning := by
  rcases List.mem_map.mp h with ⟨a, _, rfl⟩
  rfl

theorem loadProfiles_events (fs : FileSys) :
    ∀ (paths : List Str) (engines : List EngineData) (ev : Event),
      ev ∈ (loadProfiles fs paths engines).1 → ev = Event.warning := by
  intro paths
  induction paths with
  | nil => intro engines ev h; simp [loadProfiles] at h
  | cons path rest ih =>
    intro engines ev h
    cases hfs : fsLookup path fs with
    | none =>
      simp only [loadProfiles, hfs, List.mem_cons] at h
      rcases h with h | h
      · exact h
      · exact ih engines ev h
    | some lines =>
      cases hp : parseShellConfigLines lines with
      | none => simp only [loadProfiles, hfs, hp] at h; simp at h
      | some config =>
        simp only [loadProfiles, hfs, hp] at h
        exact ih (activateConfig config engines) ev h

/- Claim theorems. -/

/-- C1 (code bug): the spec says a single-quote-character value is left
    untouched thanks to a length check, but the source has no length check:
    on the line `KEY="` the value is the single character `"`, both
    `starts_with` and `ends_with` succeed, `pop()` empties the string and
    `remove(0)` panics.  `stripQuotes` returns `none` (the modelled panic) and
    the whole parse aborts instead of mapping KEY to the quote character. -/
theorem c1_single_quote_value_panics :
    stripQuotes [Char.ofNat 34] = none ∧
      parseShellConfigLines [(("KEY=\"").data)] = none := by
  decide

/-- C8: a file ending mid-continuation (last effective line still ends with a
    backslash) leaves its logical line in the buffer, which is silently
    discarded at end of file — appending such a line to any input changes
    nothing; and a completed logical line with no `=` character resets the
    buffer without adding an entry and without failing. -/
theorem c8_incomplete_and_no_equals_dropped :
    (∀ (ls : List Str) (l : Str), rsTrim l ≠ [] →
       (rsTrim l).head? ≠ some '#' → (rsTrim l).getLast? = some '\\' →
       parseShellConfigLines (ls ++ [l]) = parseShellConfigLines ls) ∧
    (∀ (st : PState) (l : Str), rsTrim l ≠ [] →
       (rsTrim l).head? ≠ some '#' → (rsTrim l).getLast? ≠ some '\\' →
       '=' ∉ st.cur ++ rsTrim l →
       configStep st l = some { map := st.map, cur := [] }) := by
  constructor
  · intro ls l h1 h2 h3
    unfold parseShellConfigLines
    rw [List.foldlM_append]
    cases hfold : List.foldlM configStep { map := [], cur := [] } ls with
    | none => simp
    | some st =>
      have hstep : configStep st l
          = some { st with cur := st.cur ++ rsTrim (rsTrim l).dropLast } := by
        unfold configStep
        rw [if_neg h1, if_neg h2, if_pos h3]
      simp [hstep]
  · intro st l h1 h2 h3 h4
    unfold configStep
    rw [if_neg h1, if_neg h2, if_neg h3]
    simp only [splitAtFirst_eq_none h4]

/-- Witness for C8: a concrete trailing-continuation line is dropped, and a
    concrete line without `=` produces no entry. -/
theorem c8_witness :
    parseShellConfigLines ([(("k=v").data)] ++ [(("a=1 \\").data)])
        = parseShellConfigLines [(("k=v").data)] ∧
      configStep { map := [], cur := [] } (("noequals").data)
        = some { map := [], cur := [] } :=
  ⟨c8_incomplete_and_no_equals_dropped.1 _ _ (by decide) (by decide) (by decide),
   c8_incomplete_and_no_equals_dropped.2 _ _ (by decide) (by decide) (by decide)
     (by decide)⟩

/-- C2 counterexample to the claim as stated: at the input
    `18446744073709551615k` the numeric part parses as a `u64`, the suffix is
    `k`, but the `u64` product wraps, so the result is not the decimal string
    of numeric-part × 1024. -/
theorem c2_claim_counterexample :
    human_to_bytes (("18446744073709551615k").data)
        = ("18446744073709550592").data ∧
      ("18446744073709550592").data ≠ (Nat.repr (18446744073709551615 * 1024)).data := by
  decide

/-- C2 (corrected): `human_to_bytes` trims, passes empty / all-digit /
    unparsable / unknown-suffix inputs through unchanged, and otherwise
    returns the decimal string of the numeric part times the binary factor,
    the product being reduced modulo `2 ^ 64` (`u64` arithmetic); the claim's
    four concrete examples hold. -/
theorem c2_human_to_bytes_spec :
    (∀ s : Str, human_to_bytes s = human_to_bytes_claim s) ∧
      human_to_bytes (("100m").data) = ("104857600").data ∧
      human_to_bytes (("1g").data) = ("1073741824").data ∧
      human_to_bytes (("512").data) = ("512").data ∧
      human_to_bytes (("20x").data) = ("20x").data := by
  refine ⟨?_, by decide, by decide, by decide, by decide⟩
  intro s
  have hidem : rsTrim (rsTrim s) = rsTrim s := rsTrim_idem s
  have hk : (("k").data).map Char.toLower = ['k'] := by decide
  have hm : (("m").data).map Char.toLower = ['m'] := by decide
  have hg : (("g").data).map Char.toLower = ['g'] := by decide
  have ht2 : (("t").data).map Char.toLower = ['t'] := by decide
  unfold human_to_bytes human_to_bytes_claim is_plain_number
  simp only [hidem, eqIgnoreAsciiCase, hk, hm, hg, ht2]
  by_cases h0 : rsTrim s = []
  · simp [h0]
  · by_cases hd : (rsTrim s).all Char.isDigit
    · simp [h0, hd]
    · simp only [if_neg h0, h0, hd, ne_eq, not_false_iff, Bool.and_false,
        Bool.false_eq_true, if_false, decide_eq_true_eq]
      cases hU : parseU64 ((rsTrim s).takeWhile Char.isDigit) with
      | none => simp [hU, h0, hd]
      | some n =>
        simp only [hU, h0, hd]
        by_cases hA : ((rsTrim s).dropWhile Char.isDigit).map Char.toLower = ['k'] <;>
          by_cases hB : ((rsTrim s).dropWhile Char.isDigit).map Char.toLower = ['m'] <;>
            by_cases hC : ((rsTrim s).dropWhile Char.isDigit).map Char.toLower = ['g'] <;>
              by_cases hD : ((rsTrim s).dropWhile Char.isDigit).map Char.toLower = ['t'] <;>
                simp [hA, hB, hC, hD, h0, hd]

/-- C5 counterexample to the claim as stated: in the entry `a: bytes` the
    text after the first colon is ` bytes`, which does NOT equal `bytes`
    case-insensitively, yet the parser enables conversion (it trims the
    modifier first). -/
theorem c5_claim_counterexample :
    (parse_key_spec (("a: bytes").data)).convert_to_bytes = true ∧
      eqIgnoreAsciiCase ((" bytes").data) (("bytes").data) = false := by
  decide

/-- C5 (corrected): `parse_key_spec` trims the entry; on a colon it splits at
    the first colon and TRIMS both halves, enabling conversion exactly when
    the trimmed modifier equals `bytes` case-insensitively; with no colon the
    name is the whole trimmed entry and conversion is off; the claim's three
    concrete examples hold. -/
theorem c5_parse_key_spec_spec :
    (∀ (s name modifier : Str),
       splitAtFirst ':' (rsTrim s) = some (name, modifier) →
       parse_key_spec s =
         { name := rsTrim name
           convert_to_bytes := eqIgnoreAsciiCase (rsTrim modifier) (("bytes").data) }) ∧
    (∀ s : Str, splitAtFirst ':' (rsTrim s) = none →
       parse_key_spec s = { name := rsTrim s, convert_to_bytes := false }) ∧
    parse_key_spec (("imgsize:bytes").data)
        = { name := ("imgsize").data, convert_to_bytes := true } ∧
    parse_key_spec (("vm_profile").data)
        = { name := ("vm_profile").data, convert_to_bytes := false } ∧
    parse_key_spec (("a:BYTES").data)
        = { name := ("a").data, convert_to_bytes := true } := by
  refine ⟨?_, ?_, by decide, by decide, by decide⟩
  · intro s name modifier h
    unfold parse_key_spec
    simp only [h]
  · intro s h
    unfold parse_key_spec
    simp only [h]

/-- Witness for C5: a concrete entry whose modifier needs trimming and case
    folding. -/
theorem c5_witness :
    parse_key_spec (("cpus: Bytes").data)
      = { name := rsTrim (("cpus").data)
          convert_to_bytes := eqIgnoreAsciiCase (rsTrim ((" Bytes").data)) (("bytes").data) } :=
  c5_parse_key_spec_spec.1 _ _ _ (by decide)

/-- Function `php_escape` prepends one backslash to a leading backslash or quote and
    leaves any other head character alone. -/
theorem php_escape_cons (c : Char) (cs : Str) :
    php_escape (c :: cs)
      = (if c = '\\' ∨ c = '"' then ['\\', c] else [c]) ++ php_escape cs := by
  by_cases h1 : c = '\\'
  · subst h1
    simp [php_escape, replaceChar]
  · by_cases h2 : c = '"'
    · subst h2
      simp [php_escape, replaceChar]
    · simp [php_escape, replaceChar, h1, h2]

/-- C6: `php_escape` (two sequential `replace` passes) equals the single pass
    that puts exactly one backslash before each backslash and each double
    quote and copies every other character unchanged. -/
theorem c6_php_escape_spec :
    ∀ s : Str, php_escape s
      = s.flatMap (fun c => if c = '\\' ∨ c = '"' then ['\\', c] else [c]) := by
  intro s
  induction s with
  | nil => rfl
  | cons c cs ih => rw [List.flatMap_cons, php_escape_cons, ih]

/-- C3: a profile's emitted parameter list is sorted by field name
    (lexicographically), is a permutation of the list that takes, in key-spec
    order, each spec whose name has a value in the profile paired with the
    (possibly byte-converted) value, and is — up to permutation — independent
    of the order of the key-spec list. -/
theorem c3_emitted_fields_sorted :
    ∀ (key_specs : List KeySpec) (profile : RawConfig),
      List.Sorted paramLe (profileParams key_specs profile) ∧
      (profileParams key_specs profile).Perm (presentParams key_specs profile) ∧
      ∀ key_specs₂ : List KeySpec, key_specs₂.Perm key_specs →
        (profileParams key_specs₂ profile).Perm (profileParams key_specs profile) := by
  intro specs p
  refine ⟨List.sorted_insertionSort paramLe _, List.perm_insertionSort paramLe _, ?_⟩
  intro specs₂ h
  exact (List.perm_insertionSort paramLe _).trans
    ((h.filterMap _).trans (List.perm_insertionSort paramLe _).symm)

/-- Witness for C3 at a concrete profile and two orderings of the key specs. -/
theorem c3_witness :
    List.Sorted paramLe (profileParams
        [{ name := ("b").data, convert_to_bytes := false },
         { name := ("a").data, convert_to_bytes := true }]
        [((("a").data), (("1k").data)), ((("b").data), (("v").data))]) ∧
    (profileParams
        [{ name := ("a").data, convert_to_bytes := true },
         { name := ("b").data, convert_to_bytes := false }]
        [((("a").data), (("1k").data)), ((("b").data), (("v").data))]).Perm
      (profileParams
        [{ name := ("b").data, convert_to_bytes := false },
         { name := ("a").data, convert_to_bytes := true }]
        [((("a").data), (("1k").data)), ((("b").data), (("v").data))]) :=
  ⟨(c3_emitted_fields_sorted _ _).1,
   (c3_emitted_fields_sorted _ _).2.2 _ (List.Perm.swap _ _ _)⟩

/-- C10: with duplicate names in the key-spec list and the name present in the
    profile, the emitted list holds one entry per occurrence of the name among
    the key specs — duplicates are not removed. -/
theorem c10_duplicate_specs_not_deduped :
    ∀ (key_specs : List KeySpec) (profile : RawConfig) (nm v : Str),
      lookupKV nm profile = some v →
      (profileParams key_specs profile).countP (fun e => decide (e.1 = nm))
        = key_specs.countP (fun spec => decide (spec.name = nm)) := by
  intro specs p nm v h
  have h1 : (profileParams specs p).countP (fun e => decide (e.1 = nm))
      = (presentParams specs p).countP (fun e => decide (e.1 = nm)) :=
    (List.perm_insertionSort paramLe _).countP_eq _
  rw [h1]
  unfold presentParams
  rw [List.countP_filterMap]
  apply List.countP_congr
  intro spec _
  by_cases hs : spec.name = nm
  · subst hs
    rw [h]
    simp
  · cases hl : lookupKV spec.name p with
    | none => simp [hl, hs]
    | some w => simp [hl, hs]

/-- Witness for C10: the name `a` occurs twice among the key specs and once in
    the profile; the emitted list holds two `a` entries. -/
theorem c10_witness :
    lookupKV (("a").data) [((("a").data), (("1k").data))] = some (("1k").data) ∧
    (profileParams
        [{ name := ("a").data, convert_to_bytes := false },
         { name := ("a").data, convert_to_bytes := true }]
        [((("a").data), (("1k").data))]).countP
          (fun e => decide (e.1 = ("a").data))
      = ([{ name := ("a").data, convert_to_bytes := false },
          { name := ("a").data, convert_to_bytes := true }] : List KeySpec).countP
          (fun spec => decide (spec.name = ("a").data)) :=
  ⟨by decide, c10_duplicate_specs_not_deduped _ _ _ (("1k").data) (by decide)⟩

/-- C4: after aggregation every engine holds exactly the parsed configs whose
    `<engine-id>_active` key is exactly "1", appended in processing order —
    membership is decided per engine independently, and each engine's
    sequence is the order-preserving filter of the processed files. -/
theorem c4_aggregation_spec :
    ∀ (engines : List EngineData) (configs : List RawConfig),
      aggregate engines configs
        = engines.map (fun e =>
            { e with profiles := e.profiles ++ configs.filter (isActiveFor e.id) }) := by
  intro engines configs
  induction configs generalizing engines with
  | nil =>
    show engines = _
    simp only [List.filter_nil, List.append_nil]
    exact (List.map_id engines).symm
  | cons c cs ih =>
    have hstep : aggregate engines (c :: cs)
        = aggregate (activateConfig c engines) cs := rfl
    rw [hstep, ih, activateConfig, List.map_map]
    apply List.map_congr_left
    intro e _
    by_cases hA : isActiveFor e.id c
    · simp [Function.comp, hA, List.filter_cons, List.append_assoc]
    · simp [Function.comp, hA, List.filter_cons]

/-- In a run trace, `createOutput` never occurs among warnings followed by a
    fatal exit. -/
theorem createOutput_not_mem_warn_fatal {W : List Event}
    (hW : ∀ ev ∈ W, ev = Event.warning) :
    Event.createOutput ∉ W ++ [Event.fatal] := by
  intro hmem
  rcases List.mem_append.mp hmem with hw | hf
  · cases hW _ hw
  · simp at hf

/-- A successful run's trace (warnings, then the output events) holds no
    fatal exit. -/
theorem fatal_not_mem_success {W L : List Event} {chunks : List Str}
    (hW : ∀ ev ∈ W, ev = Event.warning) (hL : ∀ ev ∈ L, ev = Event.warning) :
    Event.fatal ∉ W ++ (L ++ Event.createOutput :: chunks.map Event.writeOut) := by
  intro hmem
  rcases List.mem_append.mp hmem with hw | h2
  · cases hW _ hw
  · rcases List.mem_append.mp h2 with hl | h3
    · cases hL _ hl
    · rcases List.mem_cons.mp h3 with h4 | h5
      · exact Event.noConfusion h4
      · rcases List.mem_map.mp h5 with ⟨a, _, ha⟩
        exact Event.noConfusion ha

/-- A run aborted by a parser panic has no fatal exit in its trace. -/
theorem fatal_not_mem_panic {W L : List Event}
    (hW : ∀ ev ∈ W, ev = Event.warning) (hL : ∀ ev ∈ L, ev = Event.warning) :
    Event.fatal ∉ W ++ (L ++ [Event.panicked]) := by
  intro hmem
  rcases List.mem_append.mp hmem with hw | h2
  · cases hW _ hw
  · rcases List.mem_append.mp h2 with hl | h3
    · cases hL _ hl
    · simp at h3

/-- C7: whenever a run exits with a fatal input-validation error, the output
    file was never created — `createOutput` is absent from the trace (the
    trace's only `fatal` events come from the pre-creation validations). -/
theorem c7_no_output_on_validation_failure :
    ∀ inp : MainInput, Event.fatal ∈ mainTrace inp →
      Event.createOutput ∉ mainTrace inp := by
  intro inp h
  unfold mainTrace at h ⊢
  cases hc : inp.capabilities with
  | none => simp
  | some caps =>
    cases ho : inp.output_path with
    | none => simp
    | some op =>
      simp only [hc, ho] at h ⊢
      by_cases hids : engineIdsOf caps = []
      · simp [hids]
      · simp only [if_neg hids] at h ⊢
        by_cases hmk : mkEngines (engineIdsOf caps) = []
        · simp only [if_pos hmk] at h ⊢
          exact createOutput_not_mem_warn_fatal (fun ev hev => mem_const_warning hev)
        · simp only [if_neg hmk] at h ⊢
          cases hpd : inp.cix_profiles_data with
          | none =>
            simp only [hpd] at h ⊢
            exact createOutput_not_mem_warn_fatal (fun ev hev => mem_const_warning hev)
          | some keys_env =>
            simp only [hpd] at h ⊢
            by_cases hks : keySpecsOf keys_env = []
            · simp only [if_pos hks] at h ⊢
              exact createOutput_not_mem_warn_fatal (fun ev hev => mem_const_warning hev)
            · simp only [if_neg hks] at h ⊢
              cases hcp : inp.cix_profiles with
              | none =>
                simp only [hcp] at h ⊢
                exact createOutput_not_mem_warn_fatal (fun ev hev => mem_const_warning hev)
              | some profs =>
                simp only [hcp] at h ⊢
                cases hload : (loadProfiles inp.fs (splitWS profs)
                    (mkEngines (engineIdsOf caps))).2 with
                | none =>
                  rw [hload] at h
                  exact absurd h
                    (fatal_not_mem_panic (fun ev hev => mem_const_warning hev)
                      (fun ev hev => loadProfiles_events _ _ _ ev hev))
                | some engines2 =>
                  rw [hload] at h
                  exact absurd h
                    (fatal_not_mem_success (fun ev hev => mem_const_warning hev)
                      (fun ev hev => loadProfiles_events _ _ _ ev hev))

/-- Witness for C7: a run with no `-c` value exits fatally and never creates
    the output file. -/
theorem c7_witness :
    Event.fatal ∈ mainTrace
        { capabilities := none, output_path := none, cix_profiles_data := none
          cix_profiles := none
          env_limits :=
            { vm_cpus_max := none, vm_cpus_min := none, vm_ram_max := none
              vm_ram_min := none, imgsize_max := none, imgsize_min := none }
          fs := [] } ∧
      Event.createOutput ∉ mainTrace
        { capabilities := none, output_path := none, cix_profiles_data := none
          cix_profiles := none
          env_limits :=
            { vm_cpus_max := none, vm_cpus_min := none, vm_ram_max := none
              vm_ram_min := none, imgsize_max := none, imgsize_min := none }
          fs := [] } :=
  ⟨by decide, c7_no_output_on_validation_failure _ (by decide)⟩

/-- Lookup-equal configs yield the same pre-sort parameter list. -/
theorem presentParams_ext {a b : RawConfig} (h : ConfigExtEq a b) :
    ∀ specs : List KeySpec, presentParams specs a = presentParams specs b := by
  intro specs
  induction specs with
  | nil => rfl
  | cons s ss ih =>
    unfold presentParams at ih ⊢
    simp only [List.filterMap_cons, h s.name, ih]

/-- Lookup-equal configs yield the same sorted parameter list. -/
theorem profileParams_ext {a b : RawConfig} (h : ConfigExtEq a b)
    (specs : List KeySpec) : profileParams specs a = profileParams specs b := by
  unfold profileParams
  rw [presentParams_ext h]

/-- Lookup-equal configs activate the same engines. -/
theorem isActiveFor_ext {a b : RawConfig} (h : ConfigExtEq a b) (eid : Str) :
    isActiveFor eid a = isActiveFor eid b := by
  unfold isActiveFor
  rw [h]

/-- Lookup-equal configs produce byte-identical profile output. -/
theorem profileChunks_ext {a b : RawConfig} (h : ConfigExtEq a b)
    (specs : List KeySpec) (len idx : Nat) :
    profileChunks specs len idx a = profileChunks specs len idx b := by
  unfold profileChunks
  rw [profileParams_ext h]

/-- Enumerated flat-mapping over pointwise-related lists agrees when the body
    cannot tell related elements apart. -/
theorem flatMap_enumFrom_congr {α β : Type} {R : α → α → Prop}
    (g : Nat × α → List β) (hg : ∀ i a b, R a b → g (i, a) = g (i, b)) :
    ∀ {l₁ l₂ : List α}, List.Forall₂ R l₁ l₂ → ∀ n : Nat,
      (List.enumFrom n l₁).flatMap g = (List.enumFrom n l₂).flatMap g := by
  intro l₁ l₂ h
  induction h with
  | nil => intro n; rfl
  | @cons a b t₁ t₂ hab htail ih =>
    intro n
    simp only [List.enumFrom, List.flatMap_cons]
    rw [hg n a b hab, ih (n + 1)]

/-- Engines equal up to config representation produce byte-identical engine
    output. -/
theorem engineChunks_ext {e₁ e₂ : EngineData} (h : EngineExtEq e₁ e₂)
    (specs : List KeySpec) (lim : Limits) (elen ei : Nat) :
    engineChunks specs lim elen ei e₁ = engineChunks specs lim elen ei e₂ := by
  obtain ⟨hid, hname, hdesc, hpfx, hprof⟩ := h
  have hlen : e₁.profiles.length = e₂.profiles.length := hprof.length_eq
  unfold engineChunks
  rw [hid, hname, hdesc, hpfx, hlen]
  by_cases hnil : e₁.profiles = []
  · have hnil₂ : e₂.profiles = [] := by
      rw [hnil] at hlen
      exact List.length_eq_zero.mp hlen.symm
    rw [hnil, hnil₂]
  · have hnil₂ : e₂.profiles ≠ [] := by
      intro hn
      rw [hn] at hlen
      exact hnil (List.length_eq_zero.mp hlen)
    rw [if_neg hnil, if_neg hnil₂]
    have heq := flatMap_enumFrom_congr
      (fun p => profileChunks specs e₂.profiles.length p.1 p.2)
      (fun i a b hab => profileChunks_ext hab specs e₂.profiles.length i)
      hprof 0
    rw [heq]

/-- Engine lists equal up to config representation produce byte-identical
    output artifacts. -/
theorem outputChunks_ext {es₁ es₂ : List EngineData}
    (h : List.Forall₂ EngineExtEq es₁ es₂) (specs : List KeySpec)
    (lim : Limits) : outputChunks specs lim es₁ = outputChunks specs lim es₂ := by
  have hlen : es₁.length = es₂.length := h.length_eq
  unfold outputChunks
  rw [hlen]
  have heq := flatMap_enumFrom_congr
    (fun p => engineChunks specs lim es₂.length p.1 p.2)
    (fun i a b hab => engineChunks_ext hab specs lim es₂.length i)
    h 0
  rw [heq]

/-- Distributing lookup-equal configs to extensionally equal engine lists
    keeps the engine lists extensionally equal. -/
theorem activateConfig_ext {c₁ c₂ : RawConfig} (hc : ConfigExtEq c₁ c₂) :
    ∀ {es₁ es₂ : List EngineData}, List.Forall₂ EngineExtEq es₁ es₂ →
      List.Forall₂ EngineExtEq (activateConfig c₁ es₁) (activateConfig c₂ es₂) := by
  intro es₁ es₂ h
  induction h with
  | nil => exact List.Forall₂.nil
  | @cons a b t₁ t₂ hab htail ih =>
    refine List.Forall₂.cons ?_ ih
    obtain ⟨hid, hname, hdesc, hpfx, hprof⟩ := hab
    have hact : isActiveFor a.id c₁ = isActiveFor b.id c₂ := by
      rw [hid, isActiveFor_ext hc]
    by_cases hA : isActiveFor b.id c₂
    · simp only [hact, hA, if_true]
      exact ⟨hid, hname, hdesc, hpfx,
        List.rel_append hprof (List.Forall₂.cons hc List.Forall₂.nil)⟩
    · have hA' : isActiveFor b.id c₂ = false := by
        cases hb : isActiveFor b.id c₂ with
        | false => rfl
        | true => exact absurd hb hA
      simp only [hact, hA', Bool.false_eq_true, if_false]
      exact ⟨hid, hname, hdesc, hpfx, hprof⟩

/-- Aggregation preserves extensional equality of the engine lists. -/
theorem aggregate_ext :
    ∀ {cfgs₁ cfgs₂ : List RawConfig}, List.Forall₂ ConfigExtEq cfgs₁ cfgs₂ →
      ∀ {es₁ es₂ : List EngineData}, List.Forall₂ EngineExtEq es₁ es₂ →
        List.Forall₂ EngineExtEq (aggregate es₁ cfgs₁) (aggregate es₂ cfgs₂) := by
  intro cfgs₁ cfgs₂ hcfg
  induction hcfg with
  | nil => intro es₁ es₂ hes; exact hes
  | @cons c₁ c₂ t₁ t₂ hc htail ih =>
    intro es₁ es₂ hes
    exact ih (activateConfig_ext hc hes)

/-- C9: the output artifact is a pure function of the run inputs, and it
    depends on each parsed profile only through its key lookups: feeding the
    pipeline two families of configs that agree on every lookup — e.g. the
    same hash maps iterated in different orders — yields byte-identical
    chunks, for any engine ids, key specs and limits. -/
theorem c9_output_representation_independent :
    ∀ (ids : List Str) (key_specs : List KeySpec) (lim : Limits)
      (cfgs₁ cfgs₂ : List RawConfig),
      List.Forall₂ ConfigExtEq cfgs₁ cfgs₂ →
      outputChunks key_specs lim (aggregate (mkEngines ids) cfgs₁)
        = outputChunks key_specs lim (aggregate (mkEngines ids) cfgs₂) := by
  intro ids specs lim c₁ c₂ h
  apply outputChunks_ext
  apply aggregate_ext h
  apply List.forall₂_same.mpr
  intro e _
  exact ⟨rfl, rfl, rfl, rfl, List.forall₂_same.mpr (fun c _ k => rfl)⟩

/-- Witness for C9: one profile map in two different association orders gives
    byte-identical output. -/
theorem c9_witness :
    List.Forall₂ ConfigExtEq
        [[((("bhyve_active").data), (("1").data)), ((("cpus").data), (("2").data))]]
        [[((("cpus").data), (("2").data)), ((("bhyve_active").data), (("1").data))]] ∧
      outputChunks [{ name := ("cpus").data, convert_to_bytes := false }]
          { vm_cpus_max := none, vm_cpus_min := none, vm_ram_max := none
            vm_ram_min := none, imgsize_max := none, imgsize_min := none }
          (aggregate (mkEngines [(("bhyve").data)])
            [[((("bhyve_active").data), (("1").data)), ((("cpus").data), (("2").data))]])
        = outputChunks [{ name := ("cpus").data, convert_to_bytes := false }]
            { vm_cpus_max := none, vm_cpus_min := none, vm_ram_max := none
              vm_ram_min := none, imgsize_max := none, imgsize_min := none }
            (aggregate (mkEngines [(("bhyve").data)])
              [[((("cpus").data), (("2").data)), ((("bhyve_active").data), (("1").data))]]) := by
  have hcc : ConfigExtEq
      [((("bhyve_active").data), (("1").data)), ((("cpus").data), (("2").data))]
      [((("cpus").data), (("2").data)), ((("bhyve_active").data), (("1").data))] := by
    intro k
    by_cases hA : (("bhyve_active").data : Str) = k
    · cases hA
      decide
    · by_cases hC : (("cpus").data : Str) = k
      · cases hC
        decide
      · simp [lookupKV, List.find?, hA, hC]
  have h : List.Forall₂ ConfigExtEq
      [[((("bhyve_active").data), (("1").data)), ((("cpus").data), (("2").data))]]
      [[((("cpus").data), (("2").data)), ((("bhyve_active").data), (("1").data))]] :=
    List.Forall₂.cons hcc List.Forall₂.nil
  exact ⟨h, c9_output_representation_independent _ _ _ _ _ h⟩

end Clonos
